import Mathlib

set_option maxRecDepth 8000

/-!
Verification of the sbom-compile-orderer core against its specification.

The Python sources are shallowly embedded: `networkx.DiGraph` becomes an
explicit node/edge-list structure, `nx.topological_sort` becomes a fueled
Kahn-style sort, and the CLI / cache / downloader flows become pure state
transformers.  Doc comments on each definition name the source location
being modelled.
-/

/-- Model of `networkx.DiGraph` as used by `sbom_compile_order/graph.py`:
a node list in insertion order plus a directed edge list in insertion order
(networkx stores simple digraphs: no duplicate nodes, no parallel edges). -/
structure DiGraph where
  nodes : List String
  edges : List (String × String)
deriving Repr, DecidableEq

/-- `graph.add_node(x)`: insert the node if absent (networkx semantics). -/
def DiGraph.addNode (g : DiGraph) (x : String) : DiGraph :=
  if x ∈ g.nodes then g else { g with nodes := g.nodes ++ [x] }

/-- `graph.add_edge(u, v)`: ensure both endpoints exist, then insert the
edge if absent (networkx semantics, no parallel edges). -/
def DiGraph.addEdge (g : DiGraph) (u v : String) : DiGraph :=
  let g2 := (g.addNode u).addNode v
  if (u, v) ∈ g2.edges then g2 else { g2 with edges := g2.edges ++ [(u, v)] }

/-- `graph.remove_edge(u, v)`: remove the edge, or raise `NetworkXError`
when it is absent (modelled as `none`). -/
def DiGraph.removeEdge? (g : DiGraph) (u v : String) : Option DiGraph :=
  if (u, v) ∈ g.edges then some { g with edges := g.edges.erase (u, v) } else none

/-- Well-formedness every graph built through the networkx API enjoys:
nodes are pairwise distinct and each edge endpoint is a node. -/
def DiGraph.WF (g : DiGraph) : Prop :=
  g.nodes.Nodup ∧ ∀ e ∈ g.edges, e.1 ∈ g.nodes ∧ e.2 ∈ g.nodes

instance (g : DiGraph) : Decidable g.WF := by
  unfold DiGraph.WF; infer_instance

/-- A node of `remaining` with no incoming edge from `remaining`
(Kahn's zero-in-degree test restricted to the unprocessed nodes). -/
def noIncoming (edges : List (String × String)) (remaining : List String)
    (x : String) : Bool :=
  remaining.all fun u => decide ((u, x) ∉ edges)

/-- Fueled Kahn's algorithm: repeatedly output the first unprocessed node
with no incoming edge from the unprocessed set.  Returns `none` when the
sort gets stuck (a cycle among the unprocessed nodes), which models
`nx.topological_sort` raising `NetworkXUnfeasible`. -/
def kahnAux (edges : List (String × String)) :
    Nat → List String → Option (List String)
  | 0, remaining => if remaining.isEmpty then some [] else none
  | fuel + 1, remaining =>
    if remaining.isEmpty then some []
    else
      match remaining.find? (noIncoming edges remaining) with
      | none => none
      | some x => (kahnAux edges fuel (remaining.erase x)).map (x :: ·)

/-- `list(nx.topological_sort(graph))`: `some order` on success, `none`
when `NetworkXUnfeasible` would be raised. -/
def topological_sort (g : DiGraph) : Option (List String) :=
  kahnAux g.edges g.nodes.length g.nodes

theorem kahnAux_perm (edges : List (String × String)) :
    ∀ (fuel : Nat) (remaining : List String) (l : List String),
      kahnAux edges fuel remaining = some l → l.Perm remaining := by
  intro fuel
  induction fuel with
  | zero =>
    intro remaining l h
    unfold kahnAux at h
    by_cases hre : remaining.isEmpty
    · simp [hre] at h
      subst h
      rw [List.isEmpty_iff] at hre
      simp [hre]
    · simp [hre] at h
  | succ fuel ih =>
    intro remaining l h
    unfold kahnAux at h
    by_cases hre : remaining.isEmpty
    · simp [hre] at h
      subst h
      rw [List.isEmpty_iff] at hre
      simp [hre]
    · simp only [hre, if_false] at h
      cases hfind : remaining.find? (noIncoming edges remaining) with
      | none => rw [hfind] at h; simp at h
      | some x =>
        rw [hfind] at h
        simp at h
        obtain ⟨l', hrec, hl⟩ := h
        subst hl
        have hx : x ∈ remaining := List.mem_of_find?_eq_some hfind
        have hperm : l'.Perm (remaining.erase x) := ih _ _ hrec
        exact (hperm.cons x).trans (List.perm_cons_erase hx).symm

theorem topological_sort_perm (g : DiGraph) (l : List String)
    (h : topological_sort g = some l) : l.Perm g.nodes :=
  kahnAux_perm g.edges g.nodes.length g.nodes l h

/-- A nonempty closed walk along the edge list `E`: consecutive elements
are edges and there is an edge from the last element back to the first.
A directed cycle exists in a graph iff such a walk exists. -/
def ClosedWalkOn (E : List (String × String)) (w : List String) : Prop :=
  w.Chain' (fun a b => (a, b) ∈ E) ∧
    ∃ a b, w.head? = some a ∧ w.getLast? = some b ∧ (b, a) ∈ E

/-- The graph contains at least one directed cycle. -/
def DiGraph.HasCycle (g : DiGraph) : Prop := ∃ w, ClosedWalkOn g.edges w

theorem kahnAux_sound (edges : List (String × String)) :
    ∀ (fuel : Nat) (remaining : List String), remaining.Nodup →
      ∀ l, kahnAux edges fuel remaining = some l →
        ∀ u v, (u, v) ∈ edges → u ∈ remaining → v ∈ remaining →
          l.indexOf u < l.indexOf v := by
  intro fuel
  induction fuel with
  | zero =>
    intro remaining hnd l h u v he hu hv
    unfold kahnAux at h
    by_cases hre : remaining.isEmpty
    · rw [List.isEmpty_iff] at hre; subst hre; simp at hu
    · simp [hre] at h
  | succ fuel ih =>
    intro remaining hnd l h u v he hu hv
    unfold kahnAux at h
    by_cases hre : remaining.isEmpty
    · rw [List.isEmpty_iff] at hre; subst hre; simp at hu
    · simp only [hre, if_false] at h
      cases hfind : remaining.find? (noIncoming edges remaining) with
      | none => rw [hfind] at h; simp at h
      | some x =>
        rw [hfind] at h
        simp at h
        obtain ⟨l', hrec, hl⟩ := h
        subst hl
        have hni : ∀ w ∈ remaining, (w, x) ∉ edges := by
          have := List.find?_some hfind
          simpa [noIncoming, List.all_eq_true] using this
        have hvx : v ≠ x := by
          intro hvx; subst hvx; exact hni u hu he
        have hv' : v ∈ remaining.erase x := (List.mem_erase_of_ne hvx).mpr hv
        by_cases hux : u = x
        · subst hux
          rw [List.indexOf_cons_self, List.indexOf_cons_ne _ (Ne.symm hvx)]
          exact Nat.succ_pos _
        · have hu' : u ∈ remaining.erase x := (List.mem_erase_of_ne hux).mpr hu
          have hrecsound :=
            ih (remaining.erase x) (hnd.erase x) l' hrec u v he hu' hv'
          rw [List.indexOf_cons_ne _ (Ne.symm hux),
            List.indexOf_cons_ne _ (Ne.symm hvx)]
          omega

/-- Along a strictly index-increasing chain, the head index is at most the
last index. -/
theorem chain'_head_le_getLast (f : String → Nat) :
    ∀ (w : List String) (a b : String),
      w.Chain' (fun x y => f x < f y) → w.head? = some a →
      w.getLast? = some b → f a ≤ f b := by
  intro w
  induction w with
  | nil => intro a b _ ha _; simp at ha
  | cons x t iht =>
    intro a b hc ha hb
    cases t with
    | nil =>
      simp at ha hb
      subst ha; subst hb
      exact le_rfl
    | cons y t' =>
      simp at ha
      subst ha
      have hc' := List.chain'_cons.mp hc
      have hb' : (y :: t').getLast? = some b := by
        rw [List.getLast?_cons_cons] at hb
        exact hb
      have hyb := iht y b hc'.2 rfl hb'
      omega

/-- If every node of a nonempty set `S` has a predecessor inside `S`, then
following predecessors must eventually revisit a node, yielding a closed
walk.  `path` is the nodup predecessor trail built so far. -/
theorem stuck_closed_walk (E : List (String × String)) (S : List String)
    (hstuck : ∀ x ∈ S, ∃ u ∈ S, (u, x) ∈ E) :
    ∀ (fuel : Nat) (path : List String), path ≠ [] → path.Nodup →
      (∀ v ∈ path, v ∈ S) → path.Chain' (fun a b => (a, b) ∈ E) →
      S.length + 1 ≤ path.length + fuel →
      ∃ w, ClosedWalkOn E w := by
  intro fuel
  induction fuel with
  | zero =>
    intro path hne hnd hsub hchain hlen
    exfalso
    have h1 : path.toFinset.card = path.length := List.toFinset_card_of_nodup hnd
    have h2 : path.toFinset ⊆ S.toFinset := by
      intro v hv
      rw [List.mem_toFinset] at hv ⊢
      exact hsub v hv
    have h3 : path.toFinset.card ≤ S.toFinset.card := Finset.card_le_card h2
    have h4 : S.toFinset.card ≤ S.length := @List.toFinset_card_le _ _ S
    omega
  | succ fuel ih =>
    intro path hne hnd hsub hchain hlen
    obtain ⟨x, t, rfl⟩ : ∃ x t, path = x :: t := by
      cases path with
      | nil => exact absurd rfl hne
      | cons x t => exact ⟨x, t, rfl⟩
    obtain ⟨u, huS, hedge⟩ := hstuck x (hsub x (by simp))
    by_cases hu : u ∈ x :: t
    · obtain ⟨pre, suf, hdec⟩ := List.append_of_mem hu
      refine ⟨pre ++ [u], ?_, x, u, ?_, List.getLast?_concat _, hedge⟩
      · have hsplit : (pre ++ [u]) ++ suf = x :: t := by
          rw [hdec]; simp
        have hch : ((pre ++ [u]) ++ suf).Chain' (fun a b => (a, b) ∈ E) := by
          rw [hsplit]; exact hchain
        exact (List.chain'_append.mp hch).1
      · cases pre with
        | nil =>
          simp only [List.nil_append] at hdec ⊢
          have : x = u := by
            have := hdec
            injection this with h1 _
          simp [this]
        | cons p pr =>
          simp only [List.cons_append] at hdec ⊢
          have : x = p := by injection hdec with h1 _
          simp [this]
    · refine ih (u :: x :: t) (by simp) (List.nodup_cons.mpr ⟨hu, hnd⟩) ?_ ?_ ?_
      · intro v hv
        rcases List.mem_cons.mp hv with rfl | hv'
        · exact huS
        · exact hsub v hv'
      · exact List.chain'_cons.mpr ⟨hedge, hchain⟩
      · simp only [List.length_cons] at hlen ⊢
        omega

theorem kahnAux_none_stuck (edges : List (String × String)) :
    ∀ (fuel : Nat) (remaining : List String), remaining.length ≤ fuel →
      kahnAux edges fuel remaining = none →
      ∃ S : List String, S ≠ [] ∧ ∀ x ∈ S, ∃ u ∈ S, (u, x) ∈ edges := by
  intro fuel
  induction fuel with
  | zero =>
    intro remaining hlen h
    have : remaining = [] := List.length_eq_zero.mp (Nat.le_zero.mp hlen)
    subst this
    simp [kahnAux] at h
  | succ fuel ih =>
    intro remaining hlen h
    unfold kahnAux at h
    by_cases hre : remaining.isEmpty
    · simp [hre] at h
    · simp only [hre, if_false] at h
      cases hfind : remaining.find? (noIncoming edges remaining) with
      | none =>
        refine ⟨remaining, ?_, ?_⟩
        · intro hnil; subst hnil; simp at hre
        · intro x hx
          have hfail := List.find?_eq_none.mp hfind x hx
          simp only [noIncoming, List.all_eq_true, decide_eq_true_eq] at hfail
          push_neg at hfail
          obtain ⟨u, hu, hmem⟩ := hfail
          exact ⟨u, hu, hmem⟩
      | some x =>
        rw [hfind] at h
        simp at h
        have hx : x ∈ remaining := List.mem_of_find?_eq_some hfind
        have hlen' : (remaining.erase x).length ≤ fuel := by
          rw [List.length_erase_of_mem hx]
          have : 1 ≤ remaining.length := List.length_pos.mpr (by
            intro hnil; subst hnil; simp at hx)
          omega
        exact ih (remaining.erase x) hlen' h

theorem topological_sort_none_hasCycle (g : DiGraph)
    (h : topological_sort g = none) : g.HasCycle := by
  obtain ⟨S, hne, hstuck⟩ :=
    kahnAux_none_stuck g.edges g.nodes.length g.nodes le_rfl h
  obtain ⟨x0, hx0⟩ : ∃ x, x ∈ S := by
    cases S with
    | nil => exact absurd rfl hne
    | cons s t => exact ⟨s, by simp⟩
  exact stuck_closed_walk g.edges S hstuck S.length [x0] (by simp) (by simp)
    (by intro v hv; simp at hv; subst hv; exact hx0)
    (List.chain'_singleton x0) (by simp only [List.length_singleton]; omega)

theorem topological_sort_some_noCycle (g : DiGraph) (hwf : g.WF)
    (l : List String) (h : topological_sort g = some l) : ¬ g.HasCycle := by
  rintro ⟨w, hchain, a, b, ha, hb, hclose⟩
  have himp : ∀ x y, (x, y) ∈ g.edges → l.indexOf x < l.indexOf y := by
    intro x y he
    exact kahnAux_sound g.edges g.nodes.length g.nodes hwf.1 l h x y he
      (hwf.2 _ he).1 (hwf.2 _ he).2
  have hltchain : w.Chain' (fun x y => l.indexOf x < l.indexOf y) :=
    hchain.imp himp
  have hle : l.indexOf a ≤ l.indexOf b :=
    chain'_head_le_getLast (fun v => l.indexOf v) w a b hltchain ha hb
  have hlt : l.indexOf b < l.indexOf a := himp b a hclose
  omega

/-- Successors of `u` in edge-insertion order (networkx adjacency order). -/
def succsOf (edges : List (String × String)) (u : String) : List String :=
  edges.filterMap fun e => if e.1 = u then some e.2 else none

/-- Depth-first enumeration of the simple cycles through `start` whose
other vertices are drawn from `allowed` and are new to `visited`; `visited`
is the current path `start :: ... :: current`.  Fueled by the node count. -/
def cyclePathsAux (edges : List (String × String)) (allowed : List String)
    (start : String) : Nat → String → List String → List (List String)
  | 0, _, _ => []
  | fuel + 1, current, visited =>
    (succsOf edges current).foldr
      (fun v acc =>
        if v = start then visited :: acc
        else if v ∈ visited ∨ v ∉ allowed then acc
        else cyclePathsAux edges allowed start fuel v (visited ++ [v]) ++ acc)
      []

/-- `list(nx.simple_cycles(graph))`: every simple cycle, reported as a
vertex list without repeating the first vertex, rooted at its
earliest-inserted vertex (later vertices only). -/
def simple_cycles (g : DiGraph) : List (List String) :=
  g.nodes.enum.foldr
    (fun p acc =>
      cyclePathsAux g.edges (g.nodes.drop p.1) p.2 g.nodes.length p.2 [p.2] ++
        acc)
    []

/-- The cycle-breaking loop of `get_compilation_order` (graph.py lines
103-107): on a working copy, for each enumerated cycle of length > 1 remove
the edge from its last vertex back to its first.  `none` models
`remove_edge` raising (edge already removed), which the surrounding broad
`except` turns into the arbitrary-order fallback. -/
def removeClosingEdges : DiGraph → List (List String) → Option DiGraph
  | g, [] => some g
  | g, cycle :: rest =>
    if 1 < cycle.length then
      match cycle.getLast?, cycle.head? with
      | some lst, some hd =>
        match g.removeEdge? lst hd with
        | some g2 => removeClosingEdges g2 rest
        | none => none
      | _, _ => none
    else removeClosingEdges g rest

theorem removeEdge?_nodes {g g' : DiGraph} {u v : String}
    (h : g.removeEdge? u v = some g') : g'.nodes = g.nodes := by
  unfold DiGraph.removeEdge? at h
  split at h
  · cases h; rfl
  · cases h

theorem removeClosingEdges_nodes :
    ∀ (cycles : List (List String)) (g g' : DiGraph),
      removeClosingEdges g cycles = some g' → g'.nodes = g.nodes := by
  intro cycles
  induction cycles with
  | nil => intro g g' h; cases h; rfl
  | cons cycle rest ih =>
    intro g g' h
    unfold removeClosingEdges at h
    split at h
    · cases hl : cycle.getLast? with
      | none => rw [hl] at h; cases h
      | some lst =>
        cases hh : cycle.head? with
        | none => rw [hl, hh] at h; cases h
        | some hd =>
          rw [hl, hh] at h
          dsimp only at h
          cases hre : DiGraph.removeEdge? g lst hd with
          | none => rw [hre] at h; cases h
          | some g2 =>
            rw [hre] at h
            rw [ih g2 g' h, removeEdge?_nodes hre]
    · exact ih g g' h

/-- `DependencyGraph.get_compilation_order` (graph.py lines 80-122): plain
topological sort; on `NetworkXUnfeasible`, enumerate simple cycles, break
each cycle's closing edge on a copy and retry; on any further failure fall
back to all nodes in insertion order.  The second component is the
`has_circular_deps` flag. -/
def get_compilation_order (g : DiGraph) : List String × Bool :=
  match topological_sort g with
  | some order => (order, false)
  | none =>
    let cycles := simple_cycles g
    if cycles.isEmpty then (g.nodes, true)
    else
      match removeClosingEdges g cycles with
      | none => (g.nodes, true)
      | some temp =>
        match topological_sort temp with
        | some order => (order, true)
        | none => (g.nodes, true)

/-- `DependencyGraph.has_circular_dependencies` (graph.py lines 163-174).
The Python body calls `nx.topological_sort(self.graph)` WITHOUT consuming
the returned generator (no `list(...)`), so `NetworkXUnfeasible` is never
raised and the function returns `False` unconditionally; the `except`
branch is dead code.  The embedding reflects that actual behaviour. -/
def has_circular_dependencies (_ : DiGraph) : Bool := false

/-- Vertices reachable from the seed list by repeatedly appending
successors, iterated `fuel` times (enough to saturate). -/
def iterReach (edges : List (String × String)) :
    Nat → List String → List String
  | 0, acc => acc
  | fuel + 1, acc =>
    iterReach edges fuel
      (acc ++ ((acc.map (succsOf edges)).flatten.filter fun v => decide (v ∉ acc)))

def reachableFrom (g : DiGraph) (u : String) : List String :=
  iterReach g.edges g.nodes.length [u]

/-- Representative of the strongly connected component of `x`: the first
node (in insertion order) mutually reachable with `x`. -/
def sccRep (g : DiGraph) (x : String) : String :=
  (g.nodes.find? fun y =>
      decide (x ∈ reachableFrom g y) && decide (y ∈ reachableFrom g x)).getD x

/-- `nx.number_strongly_connected_components(graph)`. -/
def number_strongly_connected_components (g : DiGraph) : Nat :=
  ((g.nodes.map (sccRep g)).dedup).length

/-- The dictionary returned by `DependencyGraph.get_statistics`
(graph.py lines 226-240). -/
structure GraphStatistics where
  total_components : Nat
  total_dependencies : Nat
  has_circular_dependencies : Bool
  strongly_connected_components : Nat
deriving Repr, DecidableEq

/-- `DependencyGraph.get_statistics` (graph.py lines 226-240). -/
def get_statistics (g : DiGraph) : GraphStatistics where
  total_components := g.nodes.length
  total_dependencies := g.edges.length
  has_circular_dependencies := has_circular_dependencies g
  strongly_connected_components := number_strongly_connected_components g

theorem get_compilation_order_perm (g : DiGraph) :
    (get_compilation_order g).1.Perm g.nodes := by
  unfold get_compilation_order
  cases hts : topological_sort g with
  | some order => exact topological_sort_perm g order hts
  | none =>
    by_cases hemp : (simple_cycles g).isEmpty
    · simp [hemp]
    · cases hrce : removeClosingEdges g (simple_cycles g) with
      | none => simp [hemp, hrce]
      | some temp =>
        cases hts2 : topological_sort temp with
        | none => simp [hemp, hrce, hts2]
        | some order =>
          have hperm := topological_sort_perm temp order hts2
          rw [removeClosingEdges_nodes _ _ _ hrce] at hperm
          simpa [hemp, hrce, hts2] using hperm

/-- C1: for every graph (cyclic or not), `get_compilation_order` returns a
list with exactly one entry per node id present in the graph — no
duplicates, no omissions — in every branch (plain sort, cycle-broken
retry, and arbitrary-order fallback). -/
theorem get_compilation_order_total (g : DiGraph) (h : g.nodes.Nodup) :
    (get_compilation_order g).1.Nodup ∧
      ∀ x, x ∈ (get_compilation_order g).1 ↔ x ∈ g.nodes := by
  have hp := get_compilation_order_perm g
  exact ⟨hp.nodup_iff.mpr h, fun x => hp.mem_iff⟩

/-- Two mutually dependent nodes: a cyclic input exercising the fallback
branches of `get_compilation_order`. -/
def gCyclicPair : DiGraph := ⟨["A", "B"], [("A", "B"), ("B", "A")]⟩

theorem get_compilation_order_total_witness :
    gCyclicPair.nodes.Nodup ∧
      ((get_compilation_order gCyclicPair).1.Nodup ∧
        ∀ x, x ∈ (get_compilation_order gCyclicPair).1 ↔
          x ∈ gCyclicPair.nodes) :=
  ⟨by decide, get_compilation_order_total gCyclicPair (by decide)⟩

/-- C2: on an acyclic graph `get_compilation_order` reports the cycle flag
`false`, returns the full order, and places every dependency strictly
before its dependent. -/
theorem get_compilation_order_acyclic (g : DiGraph) (hwf : g.WF)
    (hac : ¬ g.HasCycle) :
    (get_compilation_order g).2 = false ∧
      (get_compilation_order g).1.Perm g.nodes ∧
      ∀ e ∈ g.edges,
        (get_compilation_order g).1.indexOf e.1 <
          (get_compilation_order g).1.indexOf e.2 := by
  cases hts : topological_sort g with
  | none => exact absurd (topological_sort_none_hasCycle g hts) hac
  | some order =>
    have hgco : get_compilation_order g = (order, false) := by
      unfold get_compilation_order
      rw [hts]
    rw [hgco]
    refine ⟨rfl, topological_sort_perm g order hts, ?_⟩
    intro e he
    obtain ⟨u, v⟩ := e
    exact kahnAux_sound g.edges g.nodes.length g.nodes hwf.1 order hts u v he
      (hwf.2 _ he).1 (hwf.2 _ he).2

/-- A three-node chain: `A` before `B` before `C`. -/
def gDagChain : DiGraph := ⟨["A", "B", "C"], [("A", "B"), ("B", "C")]⟩

theorem get_compilation_order_acyclic_witness :
    gDagChain.WF ∧ ¬ gDagChain.HasCycle ∧
      ((get_compilation_order gDagChain).2 = false ∧
        (get_compilation_order gDagChain).1.Perm gDagChain.nodes ∧
        ∀ e ∈ gDagChain.edges,
          (get_compilation_order gDagChain).1.indexOf e.1 <
            (get_compilation_order gDagChain).1.indexOf e.2) := by
  have hwf : gDagChain.WF := by decide
  have hnc : ¬ gDagChain.HasCycle :=
    topological_sort_some_noCycle gDagChain hwf ["A", "B", "C"] (by decide)
  exact ⟨hwf, hnc, get_compilation_order_acyclic gDagChain hwf hnc⟩

/-- Two mutually dependent nodes used to exhibit the dead cycle check. -/
def gMutualPair : DiGraph := ⟨["X", "Y"], [("X", "Y"), ("Y", "X")]⟩

/-- C3: refuted on the code.  On the two-node cycle the graph has a
directed cycle and `get_compilation_order` correctly reports `true`, yet
`has_circular_dependencies` — and hence the `has_circular_dependencies`
entry of `get_statistics` — returns `False`, because the Python body never
consumes the `nx.topological_sort` generator, so `NetworkXUnfeasible`
cannot be raised. -/
theorem has_circular_dependencies_generator_bug :
    gMutualPair.HasCycle ∧
      (get_compilation_order gMutualPair).2 = true ∧
      has_circular_dependencies gMutualPair = false ∧
      (get_statistics gMutualPair).has_circular_dependencies = false := by
  refine ⟨⟨["X", "Y"], ?_, "X", "Y", rfl, by decide, by decide⟩,
    by decide, rfl, rfl⟩
  exact List.chain'_cons.mpr ⟨by decide, List.chain'_singleton "Y"⟩

/-- `parser.Component`: the fields used by graph construction (parser.py
lines 16-31).  Absent SBOM fields default to the empty string. -/
structure Component where
  ref : String
  group : String
  name : String
  version : String
  purl : String
deriving Repr, DecidableEq

/-- `Component.get_identifier` (parser.py lines 64-75): prefer `bom-ref`,
fall back to the PURL, fall back to `group:name:version` (Python string
truthiness = nonempty). -/
def Component.get_identifier (c : Component) : String :=
  if c.ref ≠ "" then c.ref
  else if c.purl ≠ "" then c.purl
  else c.group ++ ":" ++ c.name ++ ":" ++ c.version

/-- `graph.DependencyGraph`: the networkx digraph plus the
`components` dict (insertion-ordered association list). -/
structure DependencyGraph where
  graph : DiGraph
  components : List (String × Component)
deriving Repr, DecidableEq

def DependencyGraph.empty : DependencyGraph := ⟨⟨[], []⟩, []⟩

/-- Python dict assignment `m[k] = v`: overwrite in place or append. -/
def dictInsert (m : List (String × Component)) (k : String) (v : Component) :
    List (String × Component) :=
  if m.any (fun p => p.1 == k) then
    m.map fun p => if p.1 == k then (k, v) else p
  else m ++ [(k, v)]

/-- Python dict lookup `m.get(k)`. -/
def lookupComp (m : List (String × Component)) (k : String) :
    Option Component :=
  (m.find? fun p => p.1 == k).map (·.2)

/-- Python `k in m` for the components dict. -/
def keyMem (m : List (String × Component)) (k : String) : Bool :=
  m.any fun p => p.1 == k

/-- `DependencyGraph.add_component` (graph.py lines 22-31). -/
def add_component (dg : DependencyGraph) (c : Component) : DependencyGraph :=
  ⟨dg.graph.addNode c.get_identifier,
    dictInsert dg.components c.get_identifier c⟩

/-- `DependencyGraph.add_dependency` (graph.py lines 33-50): ensure both
nodes exist, then add the edge `dependency → dependent`. -/
def add_dependency (dg : DependencyGraph)
    (component_ref dependency_ref : String) : DependencyGraph :=
  ⟨((dg.graph.addNode component_ref).addNode dependency_ref).addEdge
      dependency_ref component_ref,
    dg.components⟩

/-- First phase of `build_from_parser`: add every component
(dict-value insertion order). -/
def addComponents (dg : DependencyGraph) :
    List (String × Component) → DependencyGraph
  | [] => dg
  | p :: rest => addComponents (add_component dg p.2) rest

/-- Inner loop of `build_from_parser` (graph.py lines 67-78) over one
dependent's declared dependency refs. -/
def addDepRefs (components : List (String × Component))
    (component_ref : String) (dg : DependencyGraph) :
    List String → DependencyGraph
  | [] => dg
  | dep_ref :: rest =>
    let comp := lookupComp components component_ref
    let dep_comp := lookupComp components dep_ref
    let dg2 :=
      if comp.isSome && dep_comp.isSome then
        add_dependency dg component_ref dep_ref
      else if keyMem components dep_ref then
        add_dependency dg component_ref dep_ref
      else dg
    addDepRefs components component_ref dg2 rest

/-- Outer loop of `build_from_parser` over the dependencies dict. -/
def addDependencies (components : List (String × Component))
    (dg : DependencyGraph) :
    List (String × List String) → DependencyGraph
  | [] => dg
  | p :: rest =>
    addDependencies components (addDepRefs components p.1 dg p.2) rest

/-- `DependencyGraph.build_from_parser` (graph.py lines 52-78); named
`build_from_parsed` here. -/
def build_from_parsed (dg : DependencyGraph)
    (components : List (String × Component))
    (dependencies : List (String × List String)) : DependencyGraph :=
  addDependencies components (addComponents dg components) dependencies

theorem edges_addNode (g : DiGraph) (x : String) :
    (g.addNode x).edges = g.edges := by
  unfold DiGraph.addNode
  split <;> rfl

theorem mem_edges_addEdge (g : DiGraph) (u v : String) (e : String × String) :
    e ∈ (g.addEdge u v).edges ↔ e ∈ g.edges ∨ e = (u, v) := by
  simp only [DiGraph.addEdge]
  split
  case isTrue hmem =>
    rw [edges_addNode, edges_addNode] at hmem ⊢
    exact ⟨Or.inl, fun h => h.elim id fun he => he ▸ hmem⟩
  case isFalse hmem =>
    simp [edges_addNode, List.mem_append]

theorem edges_add_component (dg : DependencyGraph) (c : Component) :
    (add_component dg c).graph.edges = dg.graph.edges := by
  simp [add_component, edges_addNode]

theorem edges_addComponents (comps : List (String × Component)) :
    ∀ dg : DependencyGraph,
      (addComponents dg comps).graph.edges = dg.graph.edges := by
  induction comps with
  | nil => intro dg; rfl
  | cons p rest ih =>
    intro dg
    rw [addComponents, ih, edges_add_component]

theorem mem_edges_add_dependency (dg : DependencyGraph) (a b : String)
    (e : String × String) :
    e ∈ (add_dependency dg a b).graph.edges ↔
      e ∈ dg.graph.edges ∨ e = (b, a) := by
  unfold add_dependency
  rw [mem_edges_addEdge, edges_addNode, edges_addNode]

theorem mem_edges_addDepRefs (comps : List (String × Component))
    (cref : String) (e : String × String) :
    ∀ (drefs : List String) (dg : DependencyGraph),
      e ∈ (addDepRefs comps cref dg drefs).graph.edges ↔
        e ∈ dg.graph.edges ∨
          ∃ d ∈ drefs, keyMem comps d = true ∧ e = (d, cref) := by
  intro drefs
  induction drefs with
  | nil => intro dg; simp [addDepRefs]
  | cons dref rest ih =>
    intro dg
    rw [addDepRefs]
    have hdep :
        (lookupComp comps dref).isSome = true ↔ keyMem comps dref = true := by
      simp [lookupComp, keyMem, List.find?_isSome, List.any_eq_true]
    have hstep :
        (if (lookupComp comps cref).isSome && (lookupComp comps dref).isSome
            then add_dependency dg cref dref
          else if keyMem comps dref then add_dependency dg cref dref
          else dg) =
          if keyMem comps dref then add_dependency dg cref dref else dg := by
      by_cases hk : keyMem comps dref = true
      · have hds : (lookupComp comps dref).isSome = true := hdep.mpr hk
        by_cases hc : (lookupComp comps cref).isSome = true
        · rw [if_pos (by simp [hc, hds]), if_pos hk]
        · rw [if_neg (by rw [Bool.and_eq_true]; rintro ⟨h1, h2⟩; exact hc h1)]
      · have hds : ¬(lookupComp comps dref).isSome = true :=
          fun h => hk (hdep.mp h)
        rw [if_neg (by rw [Bool.and_eq_true]; rintro ⟨h1, h2⟩; exact hds h2)]
    rw [hstep]
    by_cases hk : keyMem comps dref = true
    · rw [if_pos hk, ih]
      rw [mem_edges_add_dependency]
      constructor
      · rintro (⟨h | h⟩ | ⟨d, hd, hkd, he⟩)
        · exact Or.inl h
        · exact Or.inr ⟨dref, by simp, hk, h⟩
        · exact Or.inr ⟨d, by simp [hd], hkd, he⟩
      · rintro (h | ⟨d, hd, hkd, he⟩)
        · exact Or.inl (Or.inl h)
        · rcases List.mem_cons.mp hd with rfl | hd'
          · exact Or.inl (Or.inr he)
          · exact Or.inr ⟨d, hd', hkd, he⟩
    · rw [if_neg hk, ih]
      constructor
      · rintro (h | ⟨d, hd, hkd, he⟩)
        · exact Or.inl h
        · exact Or.inr ⟨d, by simp [hd], hkd, he⟩
      · rintro (h | ⟨d, hd, hkd, he⟩)
        · exact Or.inl h
        · rcases List.mem_cons.mp hd with rfl | hd'
          · exact absurd hkd hk
          · exact Or.inr ⟨d, hd', hkd, he⟩

theorem mem_edges_addDependencies (comps : List (String × Component))
    (e : String × String) :
    ∀ (deps : List (String × List String)) (dg : DependencyGraph),
      e ∈ (addDependencies comps dg deps).graph.edges ↔
        e ∈ dg.graph.edges ∨
          ∃ p ∈ deps, ∃ d ∈ p.2, keyMem comps d = true ∧ e = (d, p.1) := by
  intro deps
  induction deps with
  | nil => intro dg; simp [addDependencies]
  | cons p rest ih =>
    intro dg
    rw [addDependencies, ih, mem_edges_addDepRefs]
    constructor
    · rintro (⟨h | ⟨d, hd, hkd, he⟩⟩ | ⟨q, hq, d, hd, hkd, he⟩)
      · exact Or.inl h
      · exact Or.inr ⟨p, by simp, d, hd, hkd, he⟩
      · exact Or.inr ⟨q, by simp [hq], d, hd, hkd, he⟩
    · rintro (h | ⟨q, hq, d, hd, hkd, he⟩)
      · exact Or.inl (Or.inl h)
      · rcases List.mem_cons.mp hq with rfl | hq'
        · exact Or.inl (Or.inr ⟨d, hd, hkd, he⟩)
        · exact Or.inr ⟨q, hq', d, hd, hkd, he⟩

/-- C4 (amended): starting from an empty graph, `build_from_parser` adds
the edge `(d, c)` (dependency `d` before dependent `c`) exactly when some
dependencies entry declares `d` as a dependency-ref of `c` AND `d` resolves
to a known component id.  The dependent side `c` need NOT resolve: an
unknown dependent is added as a fresh node (graph.py lines 75-78,
"Add it anyway"); only pairs whose dependency-ref is unknown are dropped,
silently and without error. -/
theorem build_from_parsed_edge_iff (comps : List (String × Component))
    (deps : List (String × List String)) (d c : String) :
    (d, c) ∈ (build_from_parsed DependencyGraph.empty comps deps).graph.edges
      ↔ ∃ p ∈ deps, c = p.1 ∧ d ∈ p.2 ∧ keyMem comps d = true := by
  unfold build_from_parsed
  rw [mem_edges_addDependencies, edges_addComponents]
  constructor
  · rintro (h | ⟨p, hp, dr, hdr, hkd, he⟩)
    · exact absurd h (List.not_mem_nil _)
    · have h1 : d = dr := congrArg Prod.fst he
      have h2 : c = p.1 := congrArg Prod.snd he
      subst h1
      exact ⟨p, hp, h2, hdr, hkd⟩
  · rintro ⟨p, hp, rfl, hd, hk⟩
    exact Or.inr ⟨p, hp, d, hd, hk, rfl⟩

/-- A component whose bom-ref (and hence identifier) is `"B"`. -/
def componentB : Component := ⟨"B", "grp", "b", "1.0", ""⟩

/-- C4 as frozen is false at a concrete input: with known component set
`{B}` and a declared pair (dependent `"A"`, dependency-ref `"B"`), the
dependent `"A"` does not resolve to any known component id, yet
`build_from_parser` still adds the edge `B → A`. -/
theorem build_from_parsed_unresolved_dependent_edge :
    ("B", "A") ∈ (build_from_parsed DependencyGraph.empty
        [("B", componentB)] [("A", ["B"])]).graph.edges ∧
      ∀ p ∈ [("B", componentB)], p.1 ≠ "A" := by decide

/-- The `--ignore-group-ids`, `--exclude-types`, `--exclude-package-types`
option lists as parsed by the CLI. -/
structure FilterArgs where
  ignore_group_ids : List String
  exclude_types : List String
  exclude_package_types : List String
deriving Repr, DecidableEq

def insertSorted (x : String) : List String → List String
  | [] => [x]
  | y :: t => if x ≤ y then x :: y :: t else y :: insertSorted x t

def sortStrings : List String → List String
  | [] => []
  | x :: t => insertSorted x (sortStrings t)

/-- The canonical payload `HashCache.save_compile_order_filter_config`
would persist (hash_cache.py lines 222-230): each option list sorted.
(That method is defined but never called by the CLI.) -/
def filterFingerprint (fa : FilterArgs) : List (List String) :=
  [sortStrings fa.ignore_group_ids, sortStrings fa.exclude_types,
    sortStrings fa.exclude_package_types]

/-- Contents of the cache directory's tracker files (`sbom.md5`,
`compile-order.csv.md5`, `enhanced.csv.md5`, `compile-order.filters.json`);
`none` = file absent. -/
structure CacheFiles where
  sbom_md5 : Option String
  compile_order_md5 : Option String
  enhanced_md5 : Option String
  filters_json : Option (List (List String))
deriving Repr, DecidableEq

/-- The on-disk files the CSV stage of `cli.main` reads and writes:
the cache trackers plus `compile-order.csv` and `enhanced.csv`
(file content, `none` = missing). -/
structure CsvStageState where
  cache : CacheFiles
  compile_order_csv : Option String
  enhanced_csv : Option String
deriving Repr, DecidableEq

structure CsvStageResult where
  state : CsvStageState
  needs_regen : Bool
deriving Repr, DecidableEq

/-- The CSV stage of `cli.main`, parametrised by the digest function:
1. lines 355-357 — hash the SBOM and immediately persist the digest;
2. lines 686-740 — decide `compile_order_needs_regen` from the SBOM digest
   and the base file digest (the decision never reads `filters_json`, and
   `save_compile_order_filter_config` is never invoked anywhere);
3. lines 745-775 — regenerate `compile-order.csv` and persist its digest,
   or skip that write;
4. lines 780-876 — the enhanced stage (under `--maven-central-lookup`)
   rewrites `enhanced.csv`, reading the base file;
5. lines 879-961 — `if args.pull_package and not args.maven_central_lookup`
   only starts background downloads; its `else` ("Standard formatting
   (all at once) for non-CSV formats") also runs for CSV runs, because the
   `if args.format == "csv"` at line 650 has no `else`: it re-renders via
   `formatter.format` (`render_standard`, a different column layout from
   `format_incremental`) and, when `--output` was given (`output_arg`),
   rewrites that very file; without `--output` it prints to stdout and
   touches no file. -/
def main_csv_stage (md5 : String → String) (sbom : Option String)
    (filters : FilterArgs) (render_base : String)
    (render_enhanced : Option String → String) (maven_lookup : Bool)
    (pull_package : Bool) (output_arg : Bool) (render_standard : String)
    (st : CsvStageState) : CsvStageResult :=
  let sbom_hash := sbom.map md5
  let cache1 :=
    if sbom_hash.isSome then { st.cache with sbom_md5 := sbom_hash }
    else st.cache
  let needs_regen : Bool :=
    if st.compile_order_csv.isSome then
      if sbom_hash.isSome && cache1.sbom_md5.isSome &&
          sbom_hash == cache1.sbom_md5 then
        if (st.compile_order_csv.map md5).isSome &&
            cache1.compile_order_md5.isSome &&
            st.compile_order_csv.map md5 == cache1.compile_order_md5 then
          false
        else true
      else true
    else true
  let co2 :=
    if needs_regen then some render_base else st.compile_order_csv
  let cache2 :=
    if needs_regen then { cache1 with compile_order_md5 := some (md5 render_base) }
    else cache1
  let enhanced2 :=
    if maven_lookup then some (render_enhanced co2) else st.enhanced_csv
  let co3 :=
    if pull_package && !maven_lookup then co2
    else if output_arg then some render_standard
    else co2
  ⟨⟨cache2, co3, enhanced2⟩, needs_regen⟩

def filtersNone : FilterArgs := ⟨[], [], []⟩

def filtersIgnoreExample : FilterArgs := ⟨["com.example"], [], []⟩

/-- C5 is false on the code: with the SBOM bytes unchanged (digest `"S"`
matches the persisted `sbom.md5`) and the base file unchanged, but the
active filter configuration differing from the persisted fingerprint, the
decision is still reuse (`needs_regen = false`), not RegenerateBase: the
decision in `cli.main` never consults the filter fingerprint, and nothing
ever calls `save_compile_order_filter_config`. -/
theorem filter_change_not_detected :
    (main_csv_stage (fun s => s) (some "S") filtersIgnoreExample "base"
        (fun _ => "enh") false false false "std"
        ⟨⟨some "S", some "C", none, some (filterFingerprint filtersNone)⟩,
          some "C", none⟩).needs_regen = false ∧
      filterFingerprint filtersIgnoreExample ≠
        filterFingerprint filtersNone := by decide

def md5Hash : String → String := fun s => s ++ "#"

/-- Cache and file state with no prior run. -/
def emptyCsvState : CsvStageState := ⟨⟨none, none, none, none⟩, none, none⟩

/-- State after a `--format csv --output foo.csv --pull-package` run:
base file `"BASE"` written by `format_incremental`, both digests
persisted, and no standard-formatting rewrite (the pull-package branch
was taken). -/
def stReuse : CsvStageState :=
  ⟨⟨some "SRC#", some "BASE#", none, none⟩, some "BASE", none⟩

/-- C6 is false on the code.  Run A (`--format csv --output foo.csv
--pull-package`, fresh cache) produces exactly `stReuse`: base bytes
`"BASE"`, digests persisted, no rewrite.  Run B (`--format csv --output
foo.csv`, same SBOM) then decides ReuseBase (`needs_regen = false`, both
digests match) and skips `format_incremental` — yet the run ends with the
base file holding the standard-formatting output `"12COL"` instead of
`"BASE"`: the `else` at cli.py lines 927-961 re-renders with
`CSVFormatter.format` (a 12-column layout, vs `format_incremental`'s
17 columns) and rewrites `args.output`, contradicting the claim's
byte-identical guarantee and the code's own comments ("This file is
written once and never modified again", "for non-CSV formats"). -/
theorem reuse_base_rewritten_by_standard_formatting :
    (main_csv_stage md5Hash (some "SRC") filtersNone "BASE" (fun _ => "enh")
        false true true "12COL" emptyCsvState).state = stReuse ∧
      (main_csv_stage md5Hash (some "SRC") filtersNone "BASE"
          (fun _ => "enh") false false true "12COL" stReuse).needs_regen =
        false ∧
      (main_csv_stage md5Hash (some "SRC") filtersNone "BASE"
          (fun _ => "enh") false false true "12COL"
          stReuse).state.compile_order_csv = some "12COL" ∧
      stReuse.compile_order_csv = some "BASE" ∧
      ("12COL" : String) ≠ "BASE" := by decide

/-- Python `s.lstrip("./")`: drop every leading `.` or `/` character. -/
def stripDotSlash (s : String) : String :=
  String.mk (s.data.dropWhile fun c => c = '.' ∨ c = '/')

/-- Python `s.lower()` (ASCII case folding, applied per character). -/
def lowerString (s : String) : String :=
  String.mk (s.data.map Char.toLower)

/-- Result of `pom_downloader.download_pom`: optional cached POM filename
plus the auth flag. -/
structure PomDownloadOutcome where
  result : Option String
  auth_required : Bool
deriving Repr, DecidableEq

/-- The values of the Downloaded / File Location variables for one row,
plus whether a network fetch was performed for this row. -/
structure DownloadCells where
  status : String
  location : String
  fetched : Bool
deriving Repr, DecidableEq

/-- The per-row download-status logic of `create_enhanced_csv`
(enhanced_csv.py lines 440-656), restricted to the data the downstream
columns use.  Inputs: whether a `pom_downloader` was supplied, whether the
package is Maven, the component, the matching row of the previous
`enhanced.csv` (if any), the `use_existing_data` flag
(incremental update and a matching previous row), the set of relative
paths present on disk, the outcome `download_pom` would produce if called,
the precomputed POM/JAR URLs, and the row already padded to the 16 base
columns.  Output: the row extended with the Downloaded / File Location /
POM URL / JAR URL columns, plus whether `download_pom` was actually
invoked.

Lines 449-470 set `downloaded_status = "yes"` and
`file_location = existing_file_location` when the previously recorded POM
is still on disk, but lines 473-477 unconditionally reset those variables
to the empty string before they are read, so only `skip_pom_download`
survives; the embedding keeps that actual behaviour. -/
def enhance_row_downloads (has_downloader : Bool) (is_maven : Bool)
    (comp : Component) (existing_row : Option (List String))
    (use_existing_data : Bool) (disk_files : List String)
    (download : PomDownloadOutcome) (pom_url jar_url : String)
    (row16 : List String) : List String × Bool :=
  let ex := existing_row.getD []
  let existing_downloaded_status := ex.getD 16 ""
  let existing_file_location := ex.getD 17 ""
  let skip_pom_download :=
    has_downloader && (lowerString existing_downloaded_status == "yes") &&
      (existing_file_location != "") &&
      disk_files.contains (stripDotSlash existing_file_location)
  let comp_ok :=
    (comp.group != "") && (comp.name != "") && (comp.version != "")
  let outcome :=
    if has_downloader && is_maven && comp_ok && !skip_pom_download then
      match download.result with
      | some fn =>
        { status := "yes", location := "./poms/" ++ fn, fetched := true :
            DownloadCells }
      | none =>
        { status :=
            if download.auth_required then "Authentication required"
            else "Failed to download (not found or unavailable)",
          location := "", fetched := true }
    else if has_downloader && !skip_pom_download then
      { status :=
          if comp.group == "" || comp.name == "" then
            "Missing group or artifact name"
          else if comp.version == "" then "Missing version"
          else "Not attempted",
        location := "", fetched := false }
    else { status := "", location := "", fetched := false }
  let finalRow :=
    if use_existing_data && decide (19 < ex.length) && !has_downloader then
      row16 ++ [ex.getD 16 outcome.status, ex.getD 17 outcome.location,
        ex.getD 18 pom_url, ex.getD 19 jar_url]
    else
      row16 ++ [outcome.status, outcome.location, pom_url, jar_url]
  (finalRow, outcome.fetched)

/-- A previous `enhanced.csv` row recording a successful POM download:
columns 16-19 are Downloaded = `"yes"`, File Location, POM URL, JAR URL. -/
def existingEnhancedRow : List String :=
  List.replicate 16 "" ++ ["yes", "./poms/lib-1.0.pom", "PU", "JU"]

def mavenComponent : Component :=
  ⟨"g:lib:1.0", "g", "lib", "1.0", "pkg:maven/g/lib@1.0"⟩

/-- C7 is false on the code: in an incremental update where the previous
row records Downloaded = `"yes"` with a file path that still exists on
disk, the node is indeed NOT re-fetched (`fetched = false`), but the
regenerated row's Downloaded and File Location columns come out empty
instead of reusing `"yes"` and the recorded path: the reuse assignments of
enhanced_csv.py lines 449-470 are clobbered by the reset at lines 473-477,
and the preserve-existing branch at line 640 requires `not pom_downloader`.
-/
theorem enhanced_incremental_reuse_clobbered :
    (enhance_row_downloads true true mavenComponent
        (some existingEnhancedRow) true ["poms/lib-1.0.pom"]
        ⟨none, false⟩ "PU" "JU" (List.replicate 16 "")).2 = false ∧
      (enhance_row_downloads true true mavenComponent
          (some existingEnhancedRow) true ["poms/lib-1.0.pom"]
          ⟨none, false⟩ "PU" "JU" (List.replicate 16 "")).1.getD 16
        "MISSING" = "" ∧
      (enhance_row_downloads true true mavenComponent
          (some existingEnhancedRow) true ["poms/lib-1.0.pom"]
          ⟨none, false⟩ "PU" "JU" (List.replicate 16 "")).1.getD 17
        "MISSING" = "" ∧
      existingEnhancedRow.getD 16 "" = "yes" ∧
      existingEnhancedRow.getD 17 "" = "./poms/lib-1.0.pom" := by decide

/-- Python `s.split(c, 1)`: split at the first occurrence, `none` when the
separator is absent. -/
def splitFirstOn (c : Char) : List Char → Option (List Char × List Char)
  | [] => none
  | x :: t =>
    if x = c then some ([], t)
    else (splitFirstOn c t).map fun p => (x :: p.1, p.2)

/-- Python `s.split(c)`: split at every occurrence, keeping empty pieces. -/
def splitAllOn (c : Char) : List Char → List (List Char)
  | [] => [[]]
  | x :: t =>
    if x = c then [] :: splitAllOn c t
    else
      match splitAllOn c t with
      | [] => [[x]]
      | h :: r => (x :: h) :: r

/-- Python `sep.join(pieces)` for a one-character separator. -/
def joinWith (c : Char) : List (List Char) → List Char
  | [] => []
  | [x] => x
  | x :: r => x ++ c :: joinWith c r

/-- Python `re.search(r"type=([^&]+)", s)`: first occurrence of `type=`
followed by a nonempty run of non-`&` characters. -/
def findTypeParam : List Char → Option (List Char)
  | [] => none
  | c :: rest =>
    if "type=".data.isPrefixOf (c :: rest) then
      let cap := ((c :: rest).drop 5).takeWhile (· ≠ '&')
      if cap.isEmpty then findTypeParam rest else some cap
    else findTypeParam rest

/-- `parser.parse_purl` (parser.py lines 92-147). -/
def parse_purl (purl : String) :
    Option String × Option String × Option String × Option String :=
  if ¬ "pkg:maven/".data.isPrefixOf purl.data then (none, none, none, none)
  else
    let maven_part := purl.data.drop 10
    let cr :=
      match splitFirstOn '@' maven_part with
      | some p => p
      | none => (maven_part, [])
    let parts := splitAllOn '/' cr.1
    if parts.length < 2 then (none, none, none, none)
    else
      let artifact := String.mk (parts.getLastD [])
      let group := String.mk (joinWith '.' parts.dropLast)
      let vt :=
        if cr.2.isEmpty then ((none : Option String), (none : Option String))
        else
          match splitFirstOn '?' cr.2 with
          | some (vp, qp) =>
            (if vp.isEmpty then none else some (String.mk vp),
              (findTypeParam qp).map String.mk)
          | none => (some (String.mk cr.2), none)
      (some group, some artifact, vt.1, vt.2)

/-- Python `o if o else d` for an optional string (None and "" falsy). -/
def orElseStr (o : Option String) (d : String) : String :=
  match o with
  | some s => if s = "" then d else s
  | none => d

/-- `parser.build_maven_central_url` (parser.py lines 181-214).  NOTE: it
accepts exactly four arguments — there is no `base_url` parameter; the
base URL is hard-coded. -/
def build_maven_central_url (group artifact version file_type : String) :
    String :=
  if group = "" ∨ artifact = "" ∨ version = "" then ""
  else
    let group_path :=
      String.mk (group.data.map fun ch => if ch = '.' then '/' else ch)
    let ext0 := if file_type = "" then "jar" else file_type
    let ext :=
      if ext0 = "jar" ∨ ext0 = "pom" ∨ ext0 = "war" ∨ ext0 = "ear" then ext0
      else "jar"
    "https://repo1.maven.org/maven2/" ++ group_path ++ "/" ++ artifact ++
      "/" ++ version ++ "/" ++ artifact ++ "-" ++ version ++ "." ++ ext

/-- `parser.build_maven_central_url_from_purl` (parser.py lines 216-236). -/
def build_maven_central_url_from_purl (purl : String)
    (file_type : Option String) : String :=
  match parse_purl purl with
  | (some g, some a, some v, purl_type) =>
    if g = "" ∨ a = "" ∨ v = "" then ""
    else build_maven_central_url g a v
      (orElseStr file_type (orElseStr purl_type "jar"))
  | _ => ""

/-- Outcome of one `urlopen` call: a response with status code and body
bytes, a raised `HTTPError` with its code, or a raised `URLError` / other
transport exception. -/
inductive HttpResponse
  | ok (code : Nat) (body : List Nat)
  | httpError (code : Nat)
  | netError
deriving Repr, DecidableEq

/-- A Python exception escaping the modelled function. -/
inductive PyErr
  | typeError
deriving Repr, DecidableEq

/-- Outcome of the external-tool (Maven `dependency:get`) attempt:
optional adopted filename plus the auth-detected flag. -/
structure MavenAttempt where
  result : Option String
  auth_required : Bool
deriving Repr, DecidableEq

/-- Result of `download_package`: the returned `(filename, auth_required)`
pair plus the list of file names written into the jar cache directory. -/
structure DownloadOutcome where
  result : Option String
  auth_required : Bool
  writes : List String
deriving Repr, DecidableEq

/-- The cache key of `download_package` (package_downloader.py lines
137-147): the identifier with any `?`-query and `#`-fragment suffix
stripped and `/`, `:`, `@` replaced by `_`. -/
def cache_key (c : Component) : String :=
  let identifier := c.get_identifier.data
  let id1 := identifier.takeWhile (· ≠ '?')
  let id2 := id1.takeWhile (· ≠ '#')
  String.mk (id2.map fun ch =>
    if ch = '/' ∨ ch = ':' ∨ ch = '@' then '_' else ch)

/-- `PackageDownloader._validate_artifact_content` (package_downloader.py
lines 342-385), parametrised by the behaviour of
`zipfile.ZipFile(...).namelist()` on the byte string (`Except.error`
models `BadZipFile` or any other exception).  The Python function never
raises (a broad `except` converts any failure into `False`), and the
`META-INF/MANIFEST.MF` membership it computes is only logged, never
required. -/
def validate_artifact_content
    (zipNamelist : List Nat → Except String (List String))
    (content : List Nat) : Bool × Option String :=
  if content.isEmpty then (false, some "Artifact content is empty")
  else if content.length < 4 then (false, some "Artifact content too small")
  else if content.take 4 ≠ [80, 75, 3, 4] then
    (false, some "Invalid ZIP magic bytes")
  else
    match zipNamelist content with
    | Except.ok _ => (true, none)
    | Except.error e => (false, some e)

/-- `PackageDownloader._get_maven_central_artifact_url`
(package_downloader.py lines 101-120). -/
def get_maven_central_artifact_url (c : Component)
    (artifact_type : String) : String :=
  let file_type := if artifact_type = "" then "jar" else artifact_type
  if c.purl ≠ "" then build_maven_central_url_from_purl c.purl (some file_type)
  else if c.group ≠ "" ∧ c.name ≠ "" ∧ c.version ≠ "" then
    build_maven_central_url c.group c.name c.version file_type
  else ""

/-- `PackageDownloader._get_fallback_artifact_url` (package_downloader.py
lines 538-555).  The Python body calls
`build_maven_central_url(group, name, version, type, base_url=...)`, but
`parser.build_maven_central_url` accepts no `base_url` keyword argument,
so whenever the coordinates are nonempty the call raises
`TypeError: build_maven_central_url() got an unexpected keyword argument
'base_url'` instead of returning a URL; the URL-returning path is dead. -/
def get_fallback_artifact_url (c : Component) : Except PyErr String :=
  if c.group ≠ "" ∧ c.name ≠ "" ∧ c.version ≠ "" then
    Except.error PyErr.typeError
  else Except.ok ""

/-- The HTTP portion of `PackageDownloader.download_package`
(package_downloader.py lines 172-340): primary Maven-Central GET, then on
HTTP 404 the fallback-repository GET.  File-system writes are recorded in
`writes`; the write-then-verify sequence (lines 199-230) is modelled as
succeeding.  A `TypeError` escaping the 404 handler is `Except.error`:
it is raised inside the `except HTTPError` handler, and sibling handlers
of the same `try` do not catch it. -/
def http_download_phase
    (zipNamelist : List Nat → Except String (List String)) (c : Component)
    (artifact_type cached_name : String)
    (primary fallback : HttpResponse) : Except PyErr DownloadOutcome :=
  let artifact_url := get_maven_central_artifact_url c artifact_type
  if artifact_url = "" then .ok ⟨none, false, []⟩
  else
    match primary with
    | .ok code body =>
      if code = 200 then
        if body.isEmpty then .ok ⟨none, false, []⟩
        else if (validate_artifact_content zipNamelist body).1 then
          .ok ⟨some cached_name, false, [cached_name]⟩
        else .ok ⟨none, false, []⟩
      else .ok ⟨none, false, []⟩
    | .httpError code =>
      if code = 401 ∨ code = 403 then .ok ⟨none, true, []⟩
      else if code = 404 then
        match get_fallback_artifact_url c with
        | .error e => .error e
        | .ok fallback_url =>
          if fallback_url = "" then .ok ⟨none, false, []⟩
          else
            match fallback with
            | .ok code2 body2 =>
              if code2 = 200 then
                if body2.isEmpty then .ok ⟨none, false, []⟩
                else if (validate_artifact_content zipNamelist body2).1 then
                  .ok ⟨some cached_name, false, [cached_name]⟩
                else .ok ⟨none, false, []⟩
              else .ok ⟨none, false, []⟩
            | .httpError code2 =>
              if code2 = 401 ∨ code2 = 403 then .ok ⟨none, true, []⟩
              else .ok ⟨none, false, []⟩
            | .netError => .ok ⟨none, false, []⟩
      else .ok ⟨none, false, []⟩
    | .netError => .ok ⟨none, false, []⟩

/-- `PackageDownloader.download_package` (package_downloader.py lines
122-340): coordinate guard, cache-hit short circuit, optional Maven
(external tool) attempt, then the HTTP chain.  `primary` / `fallback` are
the outcomes the two `urlopen` calls would produce; `maven` is the outcome
the Maven attempt would produce when `use_maven` is set. -/
def download_package
    (zipNamelist : List Nat → Except String (List String)) (c : Component)
    (artifact_type : String) (cached_exists : Bool) (use_maven : Bool)
    (maven : MavenAttempt) (primary fallback : HttpResponse) :
    Except PyErr DownloadOutcome :=
  if c.group = "" ∨ c.name = "" ∨ c.version = "" then .ok ⟨none, false, []⟩
  else
    let at2 := lowerString artifact_type
    let cached_name := cache_key c ++ "." ++ at2
    if cached_exists then .ok ⟨some cached_name, false, []⟩
    else if use_maven then
      match maven.result with
      | some fn => .ok ⟨some fn, false, [cached_name]⟩
      | none =>
        if maven.auth_required then .ok ⟨none, true, []⟩
        else http_download_phase zipNamelist c at2 cached_name primary
          fallback
    else http_download_phase zipNamelist c at2 cached_name primary fallback

/-- File names a (possibly raising) `download_package` call wrote into the
jar cache. -/
def writesOf (r : Except PyErr DownloadOutcome) : List String :=
  match r with
  | .ok o => o.writes
  | .error _ => []

/-- Did the call return a success (a cached filename)? -/
def isSuccess (r : Except PyErr DownloadOutcome) : Bool :=
  match r with
  | .ok o => o.result.isSome
  | .error _ => false

/-- A Maven-typed component with plain coordinates and no PURL. -/
def componentMaven : Component := ⟨"", "com.ex", "lib", "2.0", ""⟩

/-- C8 is false on the code: when the primary Maven-Central GET raises
HTTP 404, `download_package` raises a `TypeError` instead of attempting
the fallback mirror — even when the fallback would have served a valid
archive — because `_get_fallback_artifact_url` passes the nonexistent
`base_url` keyword to `parser.build_maven_central_url`, and the exception
escapes the `except HTTPError` handler uncaught. -/
theorem download_package_404_raises_type_error :
    download_package (fun _ => Except.ok []) componentMaven "jar" false
        false ⟨none, false⟩ (.httpError 404) (.ok 200 [80, 75, 3, 4]) =
      Except.error PyErr.typeError := by rfl

theorem http_phase_invalid_body_never_cached
    (zn : List Nat → Except String (List String)) (c : Component)
    (at2 cached_name : String) (primary fallback : HttpResponse)
    (hp : ∀ code body, primary = .ok code body → code = 200 →
      body.isEmpty = true ∨ (validate_artifact_content zn body).1 = false)
    (hf : ∀ code body, fallback = .ok code body → code = 200 →
      body.isEmpty = true ∨ (validate_artifact_content zn body).1 = false) :
    writesOf (http_download_phase zn c at2 cached_name primary fallback) =
        [] ∧
      isSuccess (http_download_phase zn c at2 cached_name primary fallback)
        = false := by
  simp only [http_download_phase]
  by_cases hurl : get_maven_central_artifact_url c at2 = ""
  · simp [hurl, writesOf, isSuccess]
  · rw [if_neg hurl]
    cases primary with
    | ok code body =>
      by_cases hcode : code = 200
      · subst hcode
        by_cases hbe : body.isEmpty = true
        · simp [hbe, writesOf, isSuccess]
        · rcases hp 200 body rfl rfl with hval | hval
          · exact absurd hval hbe
          · simp [hbe, hval, writesOf, isSuccess]
      · simp [hcode, writesOf, isSuccess]
    | httpError code =>
      by_cases hauth : code = 401 ∨ code = 403
      · simp [hauth, writesOf, isSuccess]
      · by_cases h404 : code = 404
        · subst h404
          cases hfb : get_fallback_artifact_url c with
          | error e => simp [hauth, hfb, writesOf, isSuccess]
          | ok url =>
            by_cases hu : url = ""
            · simp [hauth, hfb, hu, writesOf, isSuccess]
            · cases fallback with
              | ok code2 body2 =>
                by_cases hc2 : code2 = 200
                · subst hc2
                  by_cases hbe2 : body2.isEmpty = true
                  · simp [hauth, hfb, hu, hbe2, writesOf, isSuccess]
                  · rcases hf 200 body2 rfl rfl with hval2 | hval2
                    · exact absurd hval2 hbe2
                    · simp [hauth, hfb, hu, hbe2, hval2, writesOf, isSuccess]
                · simp [hauth, hfb, hu, hc2, writesOf, isSuccess]
              | httpError code2 =>
                by_cases hauth2 : code2 = 401 ∨ code2 = 403
                · simp [hauth, hfb, hu, hauth2, writesOf, isSuccess]
                · simp [hauth, hfb, hu, hauth2, writesOf, isSuccess]
              | netError => simp [hauth, hfb, hu, writesOf, isSuccess]
        · simp [hauth, h404, writesOf, isSuccess]
    | netError => simp [writesOf, isSuccess]

/-- C9: whenever every HTTP 200 response the chain could process has an
empty body or one failing structural validation, `download_package`
(cache miss, HTTP path) writes nothing into the artifact cache and does
not return success — the invalid content is discarded before any file
write. -/
theorem download_package_invalid_body_never_cached
    (zn : List Nat → Except String (List String)) (c : Component)
    (artifact_type : String) (primary fallback : HttpResponse)
    (hp : ∀ code body, primary = .ok code body → code = 200 →
      body.isEmpty = true ∨ (validate_artifact_content zn body).1 = false)
    (hf : ∀ code body, fallback = .ok code body → code = 200 →
      body.isEmpty = true ∨ (validate_artifact_content zn body).1 = false) :
    writesOf (download_package zn c artifact_type false false ⟨none, false⟩
        primary fallback) = [] ∧
      isSuccess (download_package zn c artifact_type false false
        ⟨none, false⟩ primary fallback) = false := by
  unfold download_package
  split
  · simp [writesOf, isSuccess]
  · simp only [Bool.false_eq_true, if_false]
    exact http_phase_invalid_body_never_cached zn c (lowerString
      artifact_type) (cache_key c ++ "." ++ lowerString artifact_type)
      primary fallback hp hf

def znBadZip : List Nat → Except String (List String) :=
  fun _ => Except.error "BadZipFile"

theorem download_package_invalid_body_never_cached_witness :
    (([1, 2, 3] : List Nat).isEmpty = true ∨
        (validate_artifact_content znBadZip [1, 2, 3]).1 = false) ∧
      writesOf (download_package znBadZip componentMaven "jar" false false
          ⟨none, false⟩ (.ok 200 [1, 2, 3]) (.httpError 500)) = [] ∧
      isSuccess (download_package znBadZip componentMaven "jar" false false
          ⟨none, false⟩ (.ok 200 [1, 2, 3]) (.httpError 500)) = false := by
  refine ⟨Or.inr (by decide), ?_⟩
  exact download_package_invalid_body_never_cached znBadZip componentMaven
    "jar" (.ok 200 [1, 2, 3]) (.httpError 500)
    (fun code body hcb hc => by
      cases hcb
      exact Or.inr (by decide))
    (fun code body hcb hc => by cases hcb)

/-- C10: the binary-artifact validator accepts a byte string exactly when
it is at least 4 bytes long, begins with the ZIP magic `PK\x03\x04`
(bytes 80, 75, 3, 4), and the zip library can open it and enumerate its
entry list.  The function is total (never raises), and acceptance does not
depend on the entry list's content, so a well-formed ZIP without
`META-INF/MANIFEST.MF` is accepted. -/
theorem validate_artifact_content_accepts_iff
    (zn : List Nat → Except String (List String)) (content : List Nat) :
    (validate_artifact_content zn content).1 = true ↔
      4 ≤ content.length ∧ content.take 4 = [80, 75, 3, 4] ∧
        ∃ entries, zn content = Except.ok entries := by
  by_cases h1 : content.isEmpty
  · rw [List.isEmpty_iff] at h1
    subst h1
    simp [validate_artifact_content]
  · by_cases h2 : content.length < 4
    · simp only [validate_artifact_content, h1, if_false, h2, if_true]
      constructor
      · intro h; cases h
      · rintro ⟨hlen, _, _⟩; omega
    · by_cases h3 : content.take 4 = [80, 75, 3, 4]
      · cases hz : zn content with
        | ok entries =>
          have hl : (validate_artifact_content zn content).1 = true := by
            simp [validate_artifact_content, h1, h2, h3, hz]
          rw [hl]
          constructor
          · intro _; exact ⟨by omega, h3, entries, rfl⟩
          · intro _; rfl
        | error e =>
          have hl : (validate_artifact_content zn content).1 = false := by
            simp [validate_artifact_content, h1, h2, h3, hz]
          rw [hl]
          constructor
          · intro h; exact absurd h Bool.false_ne_true
          · rintro ⟨_, _, entries, hent⟩
            cases hent
      · have hl : (validate_artifact_content zn content).1 = false := by
          simp [validate_artifact_content, h1, h2, h3]
        rw [hl]
        constructor
        · intro h; exact absurd h Bool.false_ne_true
        · rintro ⟨_, hh, _⟩; exact absurd hh h3
